import Mathlib

/-!
Verification development for the hybrid lexical/semantic retrieval core of the
OneRAG repository: the Korean morphological tokenizer
(`app/modules/core/retrieval/bm25_engine/tokenizer.py`), the BM25 keyword index
(`app/modules/core/retrieval/bm25_engine/index.py`), and the Reciprocal-Rank-Fusion
merger (`app/modules/core/retrieval/bm25_engine/hybrid_merger.py`).

Modelling conventions:
- Python floats are modelled as exact rationals (`ℚ`) for the merger, whose
  arithmetic is pure field arithmetic, and as reals (`ℝ`) for the index's
  sigmoid normalization, which uses `exp`.
- Python dicts that are built by insertion are modelled as association lists
  that preserve insertion order, exactly as CPython dicts do.
- Statements that the Python code can raise (`KeyError` on a missing dict key)
  are modelled in the `Except` monad; code paths with no raise are pure.
- External collaborators (the Kiwi analyzer, the rank-bm25 scoring model, the
  optional stopword/synonym/user-dictionary components) are modelled as opaque
  function parameters, since their code is outside this repository.
-/

/-! ## Insertion-ordered dictionary primitives (CPython dict semantics) -/

/-- Lookup in an insertion-ordered association list (`d.get(k)` / `k in d`). -/
def alistLookup {α : Type} (l : List (String × α)) (k : String) : Option α :=
  match l with
  | [] => none
  | (k', v) :: rest => if k' = k then some v else alistLookup rest k

/-- The keys of an association list in insertion order (`d.keys()`). -/
def alistKeys {α : Type} (l : List (String × α)) : List String :=
  l.map Prod.fst

/-- Assignment `d[k] = v`: overwrite in place if the key exists (keeping its
position, as CPython dicts do), otherwise append at the end. -/
def dictInsert {α : Type} (l : List (String × α)) (k : String) (v : α) : List (String × α) :=
  match l with
  | [] => [(k, v)]
  | (k', v') :: rest => if k' = k then (k, v) :: rest else (k', v') :: dictInsert rest k v

/-- Lookup with default (`d.get(k, dflt)`). -/
def dictGetD {α : Type} (l : List (String × α)) (k : String) (dflt : α) : α :=
  (alistLookup l k).getD dflt

/-- Accumulate each id once, in first-seen order: the key order a CPython dict
acquires when fed this id sequence. -/
def addIdsOnce : List String → List String → List String
  | [], acc => acc
  | id :: rest, acc => addIdsOnce rest (if id ∈ acc then acc else acc ++ [id])

/-- The distinct ids of a sequence, in first-seen order. -/
def firstSeenIds (ids : List String) : List String :=
  addIdsOnce ids []

/-! ## Data model (`SearchResult` is modelled from the spec: the repository's
`app/modules/core/retrieval/interfaces.py` is not part of the analyzed sources;
the spec's §3 Data Model gives its shape as `{id, content, score, metadata}`). -/

/-- Modelled from the spec: a dense / fused search result record
`{id, content, score, metadata}` (`interfaces.SearchResult`). Metadata is an
opaque string-keyed mapping passed through unmodified. -/
structure SearchResult where
  id : String
  content : String
  score : ℚ
  metadata : List (String × String)
deriving DecidableEq, Repr

/-- A BM25 keyword result as fed to the merger: a Python dict with keys
`id`, `content`, `score` and an optional `metadata` key (the code reads it
with `result.get("metadata", {})`). -/
structure BM25Result where
  id : String
  content : String
  score : ℚ
  metadata : Option (List (String × String))
deriving DecidableEq, Repr

/-- The per-document record kept in the merger's `doc_info` dict. -/
structure DocInfo where
  content : String
  metadata : List (String × String)
deriving DecidableEq, Repr

/-! ## Fusion merger (`hybrid_merger.py`) -/

/-- The merger's constructed state: the dense weight `alpha` (`self._alpha`). -/
structure HybridMerger where
  alpha : ℚ
deriving DecidableEq, Repr

/-- `HybridMerger.__init__`: reject construction unless `0.0 <= alpha <= 1.0`
(`raise ValueError` modelled as `Except.error`). -/
def HybridMerger.init (alpha : ℚ) : Except String HybridMerger :=
  if 0 ≤ alpha ∧ alpha ≤ 1 then .ok ⟨alpha⟩ else .error "alpha out of range"

/-- The running state of `merge`: the `rrf_scores` and `doc_info` dicts. -/
structure RRFState where
  scores : List (String × ℚ)
  info : List (String × DocInfo)

/-- The dense loop of `merge`: `for rank, result in enumerate(dense_results)`,
accumulating `alpha * (1 / (60 + rank + 1))` into `rrf_scores[result.id]`
(summed onto `rrf_scores.get(result.id, 0.0)`) and recording first-seen
content/metadata in `doc_info`. -/
def denseLoop (alpha : ℚ) (rank : Nat) : List SearchResult → RRFState → RRFState
  | [], st => st
  | r :: rest, st =>
      denseLoop alpha (rank + 1) rest
        ⟨dictInsert st.scores r.id (dictGetD st.scores r.id 0 + alpha * (1 / (60 + (rank : ℚ) + 1))),
         if alistLookup st.info r.id = none then st.info ++ [(r.id, ⟨r.content, r.metadata⟩)]
         else st.info⟩

/-- The BM25 loop of `merge`: `for rank, result in enumerate(bm25_results)` with
weight `1.0 - alpha`, and `result.get("metadata", {})` for a missing key. -/
def bm25Loop (w : ℚ) (rank : Nat) : List BM25Result → RRFState → RRFState
  | [], st => st
  | r :: rest, st =>
      bm25Loop w (rank + 1) rest
        ⟨dictInsert st.scores r.id (dictGetD st.scores r.id 0 + w * (1 / (60 + (rank : ℚ) + 1))),
         if alistLookup st.info r.id = none then st.info ++ [(r.id, ⟨r.content, r.metadata.getD []⟩)]
         else st.info⟩

/-- The sort key relation of `sorted(rrf_scores.keys(), key=..., reverse=True)`:
`a` may precede `b` when `a`'s accumulated score is at least `b`'s. -/
def scoreRel (scores : List (String × ℚ)) (a b : String) : Prop :=
  dictGetD scores b 0 ≤ dictGetD scores a 0

instance scoreRelDecidable (scores : List (String × ℚ)) : DecidableRel (scoreRel scores) :=
  fun a b => inferInstanceAs (Decidable (dictGetD scores b 0 ≤ dictGetD scores a 0))

instance scoreRelTotal (scores : List (String × ℚ)) : IsTotal String (scoreRel scores) :=
  ⟨fun a b => le_total (dictGetD scores b 0) (dictGetD scores a 0)⟩

instance scoreRelTrans (scores : List (String × ℚ)) : IsTrans String (scoreRel scores) :=
  ⟨fun _ _ _ h h' => le_trans h' h⟩

/-- The final loop of `merge`: for each id of the truncated sorted key list read
`doc_info[doc_id]` and `rrf_scores[doc_id]` (a missing key would raise
`KeyError`, modelled as `Except.error`) and emit a `SearchResult`. -/
def buildResults (scores : List (String × ℚ)) (info : List (String × DocInfo)) :
    List String → Except String (List SearchResult)
  | [] => .ok []
  | id :: rest =>
      match alistLookup info id, alistLookup scores id with
      | some i, some s => (buildResults scores info rest).map (fun out => ⟨id, i.content, s, i.metadata⟩ :: out)
      | _, _ => .error "KeyError"

/-- `HybridMerger.merge`: RRF fusion of a dense result list and a BM25 result
list.  The sort is Python's `sorted(..., key=lambda x: rrf_scores[x],
reverse=True)`; since Python's sort is stable and total, it coincides with
stable insertion sort under `scoreRel`. -/
def HybridMerger.merge (m : HybridMerger) (denseResults : List SearchResult)
    (bm25Results : List BM25Result) (topK : Nat) : Except String (List SearchResult) :=
  if denseResults = [] ∧ bm25Results = [] then .ok []
  else
    let st1 := denseLoop m.alpha 0 denseResults ⟨[], []⟩
    let st2 := bm25Loop (1 - m.alpha) 0 bm25Results st1
    let sortedIds := List.insertionSort (scoreRel st2.scores) (alistKeys st2.scores)
    buildResults st2.scores st2.info (sortedIds.take topK)

/-! ## Spec-side RRF formula (for the refinement claims; written from the
spec's words: "for each result at zero-based rank `r` ... contribute
`alpha * (1 / (K + r + 1))` ... contributions are summed"). -/

/-- Spec-side contribution of one weighted list to one id: the sum of
`w * (1 / (60 + r + 1))` over every zero-based rank `r` at which the id
occurs in the list. -/
def rrfContrib (w : ℚ) (ids : List String) (x : String) : ℚ :=
  ((ids.enum.filter (fun p => p.2 = x)).map (fun p => w * (1 / (60 + (p.1 : ℚ) + 1)))).sum

/-- Spec-side fused score of an id: dense contributions weighted `alpha` plus
keyword contributions weighted `1 - alpha`, every occurrence summed. -/
def specFusedScore (alpha : ℚ) (denseResults : List SearchResult)
    (bm25Results : List BM25Result) (x : String) : ℚ :=
  rrfContrib alpha (denseResults.map (·.id)) x +
    rrfContrib (1 - alpha) (bm25Results.map (·.id)) x

/-! ## Proof-companion folds for the merge loops -/

/-- The score component of the merge loops, abstracted to the id sequence. -/
def scoresFold (w : ℚ) : Nat → List String → List (String × ℚ) → List (String × ℚ)
  | _, [], s => s
  | rank, id :: rest, s =>
      scoresFold w (rank + 1) rest
        (dictInsert s id (dictGetD s id 0 + w * (1 / (60 + (rank : ℚ) + 1))))

/-- The `doc_info` component of the merge loops, abstracted to (id, info)
pairs: record a pair only on first sighting of its id. -/
def infoFold : List (String × DocInfo) → List (String × DocInfo) → List (String × DocInfo)
  | [], s => s
  | (id, i) :: rest, s =>
      infoFold rest (if alistLookup s id = none then s ++ [(id, i)] else s)

/-- Rank-indexed closed form of one list's accumulated contribution to one id. -/
def wContrib (w : ℚ) : Nat → List String → String → ℚ
  | _, [], _ => 0
  | rank, id :: rest, x =>
      (if id = x then w * (1 / (60 + (rank : ℚ) + 1)) else 0) + wContrib w (rank + 1) rest x

/-! ## Korean tokenizer (`tokenizer.py`) -/

/-- One morpheme produced by the external Kiwi analyzer: a surface form and a
part-of-speech tag. -/
structure Token where
  form : String
  tag : String
deriving DecidableEq, Repr

/-- The fixed allow-list `_MEANINGFUL_POS_TAGS` of meaningful part-of-speech
categories. -/
def meaningfulPosTags : List String :=
  ["NNG", "NNP", "VV", "VA", "MAG", "SL", "SN", "SH"]

/-- The optional `UserDictionary` collaborator: `protect_entries` rewrites the
text and returns a restoration map; `restore_entries` maps one protected form
back through that map. -/
structure UserDictionary where
  protectEntries : String → String × List (String × String)
  restoreEntries : String → List (String × String) → String

/-- The optional `SynonymManager` collaborator: `expand_query` rewrites text. -/
structure SynonymManager where
  expandQuery : String → String

/-- The optional `StopwordFilter` collaborator: `filter` removes stopwords. -/
structure StopwordFilter where
  filter : List String → List String

/-- The constructed `KoreanTokenizer`: three optional collaborators plus the
required Kiwi analyzer (`self._kiwi.tokenize`), modelled as an opaque
segmentation function. -/
structure KoreanTokenizer where
  stopwordFilter : Option StopwordFilter
  synonymManager : Option SynonymManager
  userDictionary : Option UserDictionary
  kiwi : String → List Token

/-- Python's blank-input guard `not text or not text.strip()`: true exactly when
every character of the text is whitespace (including the empty text). -/
def pythonBlank (text : String) : Bool :=
  text.data.all Char.isWhitespace

/-- `KoreanTokenizer.tokenize`: the five-stage pipeline exactly as coded —
blank guard; `protect_entries` when a user dictionary is present; `expand_query`
when a synonym manager is present; the Kiwi loop keeping only meaningful tags,
restoring each kept form through the restoration map when that map is
non-empty; and finally the stopword filter when present. -/
def tokenize (c : KoreanTokenizer) (text : String) : List String :=
  if pythonBlank text then []
  else
    let pr := match c.userDictionary with
      | some ud => ud.protectEntries text
      | none => (text, [])
    let processed := match c.synonymManager with
      | some sm => sm.expandQuery pr.1
      | none => pr.1
    let toks := (c.kiwi processed).foldl
      (fun acc t =>
        if t.tag ∈ meaningfulPosTags then
          acc ++ [if pr.2 ≠ [] then
                    (match c.userDictionary with
                     | some ud => ud.restoreEntries t.form pr.2
                     | none => t.form)
                  else t.form]
        else acc) []
    match c.stopwordFilter with
    | some sf => sf.filter toks
    | none => toks

/-- `KoreanTokenizer.tokenize_batch`: element-wise `tokenize`. -/
def tokenizeBatch (c : KoreanTokenizer) (texts : List String) : List (List String) :=
  texts.map (tokenize c)

/-! ## Spec-side pipeline stages (written from the spec's §4.1 five-stage
description, to be compared with the coded `tokenize`). -/

/-- Spec stage 1, protection: apply the user dictionary's `protect_entries`
when present; an absent collaborator is a no-op returning an empty map. -/
def specProtect (c : KoreanTokenizer) (text : String) : String × List (String × String) :=
  match c.userDictionary with
  | some ud => ud.protectEntries text
  | none => (text, [])

/-- Spec stage 2, expansion: apply the synonym manager when present. -/
def specExpand (c : KoreanTokenizer) (text : String) : String :=
  match c.synonymManager with
  | some sm => sm.expandQuery text
  | none => text

/-- Spec stage 3, segmentation: retain exactly the (form, tag) pairs whose tag
is in the meaningful-category allow-list, in original order, preserving
repeats. -/
def specSegment (c : KoreanTokenizer) (text : String) : List Token :=
  (c.kiwi text).filter (fun t => t.tag ∈ meaningfulPosTags)

/-- Spec stage 4, restoration: map each kept form back through the restoration
map produced by stage 1 (a no-op when that map is empty). -/
def specRestore (c : KoreanTokenizer) (restoreMap : List (String × String))
    (toks : List Token) : List String :=
  toks.map (fun t =>
    if restoreMap ≠ [] then
      (match c.userDictionary with
       | some ud => ud.restoreEntries t.form restoreMap
       | none => t.form)
    else t.form)

/-- Spec stage 5, stopword filtering: apply the stopword filter when present,
last of all stages. -/
def specStopword (c : KoreanTokenizer) (toks : List String) : List String :=
  match c.stopwordFilter with
  | some sf => sf.filter toks
  | none => toks

/-! ## BM25 keyword index (`index.py`) -/

/-- A document supplied to `BM25Index.build`: `{id, content, metadata}`. -/
structure Document where
  id : String
  content : String
  metadata : List (String × String)
deriving DecidableEq, Repr

/-- A keyword search result returned by `BM25Index.search`: the normalized
score is a real number (the sigmoid of the raw BM25 score). -/
structure KWResult where
  id : String
  content : String
  score : ℝ
  metadata : List (String × String)

/-- The `BM25Index` instance state: the injected tokenizer, the indexed
documents, the tokenized corpus, and `self._bm25` — `None` until a non-empty
build, afterwards the external rank-bm25 `BM25Plus` model, modelled as an
opaque map from query tokens to one raw score per indexed document. -/
structure BM25IndexState where
  tokenizer : KoreanTokenizer
  documents : List Document
  tokenizedCorpus : List (List String)
  bm25 : Option (List String → List ℝ)

/-- `BM25Index.__init__`: no documents, no model. -/
def BM25Index.initState (tokenizer : KoreanTokenizer) : BM25IndexState :=
  ⟨tokenizer, [], [], none⟩

/-- `BM25Index.document_count`. -/
def BM25Index.documentCount (st : BM25IndexState) : Nat :=
  st.documents.length

/-- `BM25Index.build`: an empty document list resets the index to the empty
state; otherwise tokenize all contents in batch and construct the scoring
model over the tokenized corpus.  `mkModel` stands for the external
`BM25Plus` constructor. -/
def BM25Index.build (mkModel : List (List String) → List String → List ℝ)
    (st : BM25IndexState) (documents : List Document) : BM25IndexState :=
  if documents = [] then { st with documents := [], tokenizedCorpus := [], bm25 := none }
  else
    let corpus := tokenizeBatch st.tokenizer (documents.map (·.content))
    { st with documents := documents, tokenizedCorpus := corpus, bm25 := some (mkModel corpus) }

/-- `BM25Index._normalize_score`: the logistic sigmoid `1 / (1 + e^(-raw))`. -/
noncomputable def normalizeScore (rawScore : ℝ) : ℝ :=
  1 / (1 + Real.exp (-rawScore))

/-- The descending stable sort `results.sort(key=lambda x: x["score"],
reverse=True)` over real-valued scores. -/
noncomputable def searchSort (results : List KWResult) : List KWResult :=
  @List.insertionSort KWResult (fun a b => b.score ≤ a.score) (fun _ _ => Classical.dec _) results

open Classical in
/-- `BM25Index.search`: empty result when the model is absent, the document
list is empty, or the tokenized query is empty; otherwise score every
document, keep those with strictly positive raw score, normalize with the
sigmoid, sort descending by normalized score and truncate to `top_k`. -/
noncomputable def BM25Index.search (st : BM25IndexState) (query : String) (topK : Nat) :
    List KWResult :=
  match st.bm25 with
  | none => []
  | some model =>
    if st.documents = [] then []
    else
      let queryTokens := tokenize st.tokenizer query
      if queryTokens = [] then []
      else
        let rawScores := model queryTokens
        let results := rawScores.enum.filterMap (fun (p : Nat × ℝ) =>
          match st.documents.get? p.1 with
          | some doc =>
              if 0 < p.2 then some ⟨doc.id, doc.content, normalizeScore p.2, doc.metadata⟩
              else none
          | none => none)
        (searchSort results).take topK

/-! ## Concrete sample values used by witness theorems -/

/-- A collaborator-free tokenizer whose analyzer yields one meaningful and one
non-meaningful morpheme for any text. -/
def cTokenizer : KoreanTokenizer :=
  ⟨none, none, none, fun _ => [⟨"tok", "NNG"⟩, ⟨"x", "JKS"⟩]⟩

/-- A sample document. -/
def cDoc : Document := ⟨"d1", "c1", []⟩

/-- A sample external scoring model: one raw score `log 2` per query. -/
noncomputable def cModel : List (List String) → List String → List ℝ :=
  fun _ _ => [Real.log 2]

/-- A sample built one-document index. -/
noncomputable def cIndex : BM25IndexState :=
  BM25Index.build cModel (BM25Index.initState cTokenizer) [cDoc]

/-- Sample dense result with id `A`. -/
def dA : SearchResult := ⟨"A", "a", 0, []⟩

/-- Second sample dense result carrying the same id `A` but other content. -/
def dA2 : SearchResult := ⟨"A", "a2", 0, []⟩

/-- Sample BM25 result with id `B`. -/
def bB : BM25Result := ⟨"B", "b", 0, none⟩

/-- Sample BM25 result with id `C`. -/
def bC : BM25Result := ⟨"C", "c", 0, none⟩

/-- Sample BM25 result sharing id `A` with the dense side. -/
def bA : BM25Result := ⟨"A", "ab", 0, some [("k", "v")]⟩

/-! ## Association-list lemmas -/

theorem alistLookup_eq_none {α : Type} (l : List (String × α)) (k : String) :
    alistLookup l k = none ↔ k ∉ alistKeys l := by
  induction l with
  | nil => simp [alistLookup, alistKeys]
  | cons p rest ih =>
    obtain ⟨k', v⟩ := p
    by_cases h : k' = k
    · subst h
      simp [alistLookup, alistKeys]
    · have h' : ¬ k = k' := fun hh => h hh.symm
      simp [alistLookup, alistKeys, h, h', ih]

theorem alistLookup_isSome {α : Type} (l : List (String × α)) (k : String) :
    (alistLookup l k).isSome = true ↔ k ∈ alistKeys l := by
  rw [Option.isSome_iff_ne_none, not_iff_comm, ← alistLookup_eq_none]

theorem alistKeys_dictInsert {α : Type} (l : List (String × α)) (k : String) (v : α) :
    alistKeys (dictInsert l k v) =
      if k ∈ alistKeys l then alistKeys l else alistKeys l ++ [k] := by
  induction l with
  | nil => simp [dictInsert, alistKeys]
  | cons p rest ih =>
    obtain ⟨k', v'⟩ := p
    by_cases h : k' = k
    · subst h
      simp [dictInsert, alistKeys]
    · have h' : ¬ k = k' := fun hh => h hh.symm
      simp only [dictInsert, if_neg h, alistKeys, List.map_cons]
      have ih' : List.map Prod.fst (dictInsert rest k v) =
          if k ∈ List.map Prod.fst rest then List.map Prod.fst rest
          else List.map Prod.fst rest ++ [k] := ih
      rw [ih']
      by_cases hm : k ∈ List.map (Prod.fst (α := String) (β := α)) rest
      · simp [hm, h']
      · simp [hm, h']

theorem alistLookup_dictInsert {α : Type} (l : List (String × α)) (k x : String) (v : α) :
    alistLookup (dictInsert l k v) x = if k = x then some v else alistLookup l x := by
  induction l with
  | nil => simp [dictInsert, alistLookup]
  | cons p rest ih =>
    obtain ⟨k', v'⟩ := p
    by_cases h : k' = k
    · subst h
      by_cases hx : k' = x <;> simp [dictInsert, alistLookup, hx]
    · by_cases hx : k' = x
      · subst hx
        have : ¬ k = k' := fun hh => h hh.symm
        simp [dictInsert, alistLookup, h, this]
      · simp [dictInsert, alistLookup, h, hx, ih]

theorem alistLookup_append {α : Type} (l₁ l₂ : List (String × α)) (x : String) :
    alistLookup (l₁ ++ l₂) x = (alistLookup l₁ x).or (alistLookup l₂ x) := by
  induction l₁ with
  | nil => simp [alistLookup]
  | cons p rest ih =>
    obtain ⟨k', v⟩ := p
    by_cases h : k' = x <;> simp [alistLookup, h, ih]

theorem mem_addIdsOnce (ids : List String) (acc : List String) (x : String) :
    x ∈ addIdsOnce ids acc ↔ x ∈ acc ∨ x ∈ ids := by
  induction ids generalizing acc with
  | nil => simp [addIdsOnce]
  | cons id rest ih =>
    by_cases h : id ∈ acc
    · simp only [addIdsOnce, if_pos h, ih, List.mem_cons]
      constructor
      · rintro (hx | hx)
        · exact Or.inl hx
        · exact Or.inr (Or.inr hx)
      · rintro (hx | hx | hx)
        · exact Or.inl hx
        · exact Or.inl (hx ▸ h)
        · exact Or.inr hx
    · simp only [addIdsOnce, if_neg h, ih, List.mem_append, List.mem_singleton, List.mem_cons]
      tauto

theorem addIdsOnce_nodup (ids : List String) (acc : List String) (h : acc.Nodup) :
    (addIdsOnce ids acc).Nodup := by
  induction ids generalizing acc with
  | nil => exact h
  | cons id rest ih =>
    by_cases hm : id ∈ acc
    · simpa [addIdsOnce, if_pos hm] using ih acc h
    · have hnd : (acc ++ [id]).Nodup := by
        simp [List.nodup_append, h, hm]
      simpa [addIdsOnce, if_neg hm] using ih (acc ++ [id]) hnd

/-! ## Bridging the merge loops to their proof-companion folds -/

theorem denseLoop_scores (alpha : ℚ) (rank : Nat) (l : List SearchResult) (st : RRFState) :
    (denseLoop alpha rank l st).scores = scoresFold alpha rank (l.map (·.id)) st.scores := by
  induction l generalizing rank st with
  | nil => rfl
  | cons r rest ih => simp [denseLoop, scoresFold, ih]

theorem denseLoop_info (alpha : ℚ) (rank : Nat) (l : List SearchResult) (st : RRFState) :
    (denseLoop alpha rank l st).info =
      infoFold (l.map (fun r => (r.id, ⟨r.content, r.metadata⟩))) st.info := by
  induction l generalizing rank st with
  | nil => rfl
  | cons r rest ih => simp [denseLoop, infoFold, ih]

theorem bm25Loop_scores (w : ℚ) (rank : Nat) (l : List BM25Result) (st : RRFState) :
    (bm25Loop w rank l st).scores = scoresFold w rank (l.map (·.id)) st.scores := by
  induction l generalizing rank st with
  | nil => rfl
  | cons r rest ih => simp [bm25Loop, scoresFold, ih]

theorem bm25Loop_info (w : ℚ) (rank : Nat) (l : List BM25Result) (st : RRFState) :
    (bm25Loop w rank l st).info =
      infoFold (l.map (fun r => (r.id, ⟨r.content, r.metadata.getD []⟩))) st.info := by
  induction l generalizing rank st with
  | nil => rfl
  | cons r rest ih => simp [bm25Loop, infoFold, ih]

/-! ## Closed forms of the accumulated scores -/

theorem wContrib_of_not_mem (w : ℚ) (rank : Nat) (ids : List String) (x : String)
    (h : x ∉ ids) : wContrib w rank ids x = 0 := by
  induction ids generalizing rank with
  | nil => rfl
  | cons id rest ih =>
    simp only [List.mem_cons, not_or] at h
    have h1 : ¬ id = x := fun hh => h.1 hh.symm
    simp [wContrib, h1, ih _ h.2]

theorem wContrib_zero_weight (rank : Nat) (ids : List String) (x : String) :
    wContrib 0 rank ids x = 0 := by
  induction ids generalizing rank with
  | nil => rfl
  | cons id rest ih => simp [wContrib, ih]

theorem wContrib_eq_sum_from (w : ℚ) (rank : Nat) (ids : List String) (x : String) :
    wContrib w rank ids x =
      (((ids.enumFrom rank).filter (fun p => p.2 = x)).map
        (fun p => w * (1 / (60 + (p.1 : ℚ) + 1)))).sum := by
  induction ids generalizing rank with
  | nil => simp [wContrib]
  | cons id rest ih =>
    by_cases h : id = x
    · simp [wContrib, List.enumFrom_cons, h, ih]
    · simp [wContrib, List.enumFrom_cons, h, ih]

theorem rrfContrib_eq_wContrib (w : ℚ) (ids : List String) (x : String) :
    rrfContrib w ids x = wContrib w 0 ids x := by
  rw [rrfContrib, List.enum_eq_enumFrom, wContrib_eq_sum_from]

theorem scoresFold_keys (w : ℚ) (ids : List String) (rank : Nat) (s : List (String × ℚ)) :
    alistKeys (scoresFold w rank ids s) = addIdsOnce ids (alistKeys s) := by
  induction ids generalizing rank s with
  | nil => rfl
  | cons id rest ih =>
    simp only [scoresFold, addIdsOnce]
    rw [ih, alistKeys_dictInsert]

theorem scoresFold_lookup (w : ℚ) (ids : List String) (rank : Nat)
    (s : List (String × ℚ)) (x : String) :
    alistLookup (scoresFold w rank ids s) x =
      if x ∈ alistKeys s ∨ x ∈ ids
      then some ((alistLookup s x).getD 0 + wContrib w rank ids x)
      else none := by
  induction ids generalizing rank s with
  | nil =>
    by_cases hm : x ∈ alistKeys s
    · obtain ⟨v, hv⟩ := Option.isSome_iff_exists.mp ((alistLookup_isSome s x).mpr hm)
      simp [scoresFold, wContrib, hm, hv]
    · simp [scoresFold, wContrib, hm, (alistLookup_eq_none s x).mpr hm]
  | cons id rest ih =>
    rw [scoresFold, ih]
    by_cases hx : id = x
    · subst hx
      have hkey : id ∈ alistKeys (dictInsert s id (dictGetD s id 0 + w * (1 / (60 + (rank : ℚ) + 1)))) := by
        rw [alistKeys_dictInsert]
        by_cases hm : id ∈ alistKeys s <;> simp [hm]
      rw [if_pos (Or.inl hkey), if_pos (Or.inr (List.mem_cons_self _ _))]
      rw [alistLookup_dictInsert, if_pos rfl]
      simp [wContrib, dictGetD, add_assoc]
    · have hx' : ¬ x = id := fun hh => hx hh.symm
      have h1 : alistLookup (dictInsert s id (dictGetD s id 0 + w * (1 / (60 + (rank : ℚ) + 1)))) x =
          alistLookup s x := by rw [alistLookup_dictInsert, if_neg hx]
      have h2 : (x ∈ alistKeys (dictInsert s id (dictGetD s id 0 + w * (1 / (60 + (rank : ℚ) + 1))))) ↔
          x ∈ alistKeys s := by
        rw [alistKeys_dictInsert]
        by_cases hm : id ∈ alistKeys s <;> simp [hm, hx']
      by_cases hc : x ∈ alistKeys s ∨ x ∈ rest
      · have hA : x ∈ alistKeys (dictInsert s id (dictGetD s id 0 + w * (1 / (60 + (rank : ℚ) + 1)))) ∨
            x ∈ rest := by
          rcases hc with hc | hc
          · exact Or.inl (h2.mpr hc)
          · exact Or.inr hc
        have hB : x ∈ alistKeys s ∨ x ∈ id :: rest := by
          rcases hc with hc | hc
          · exact Or.inl hc
          · exact Or.inr (List.mem_cons_of_mem _ hc)
        rw [if_pos hA, if_pos hB, h1]
        simp [wContrib, hx]
      · have hA : ¬ (x ∈ alistKeys (dictInsert s id (dictGetD s id 0 + w * (1 / (60 + (rank : ℚ) + 1)))) ∨
            x ∈ rest) := by
          intro hcc
          rcases hcc with hcc | hcc
          · exact hc (Or.inl (h2.mp hcc))
          · exact hc (Or.inr hcc)
        have hB : ¬ (x ∈ alistKeys s ∨ x ∈ id :: rest) := by
          intro hcc
          rcases hcc with hcc | hcc
          · exact hc (Or.inl hcc)
          · rcases List.mem_cons.mp hcc with hcc | hcc
            · exact hx' hcc
            · exact hc (Or.inr hcc)
        rw [if_neg hA, if_neg hB]

/-! ## Closed form of the accumulated doc-info dict -/

theorem infoFold_lookup (items : List (String × DocInfo)) (s : List (String × DocInfo))
    (x : String) :
    alistLookup (infoFold items s) x =
      (alistLookup s x).or ((items.find? (fun p => p.1 == x)).map Prod.snd) := by
  induction items generalizing s with
  | nil => simp [infoFold]
  | cons p rest ih =>
    obtain ⟨id, i⟩ := p
    by_cases hs : alistLookup s id = none
    · simp only [infoFold, if_pos hs]
      rw [ih, alistLookup_append]
      by_cases hx : id = x
      · subst hx
        simp [alistLookup, List.find?_cons, Option.or_assoc]
      · simp [alistLookup, hx, List.find?_cons]
    · simp only [infoFold, if_neg hs]
      rw [ih]
      by_cases hx : id = x
      · subst hx
        obtain ⟨v, hv⟩ := Option.ne_none_iff_exists'.mp hs
        simp [hv, List.find?_cons]
      · simp [hx, List.find?_cons]

theorem infoFold_keys (items : List (String × DocInfo)) (s : List (String × DocInfo)) :
    alistKeys (infoFold items s) = addIdsOnce (items.map Prod.fst) (alistKeys s) := by
  induction items generalizing s with
  | nil => rfl
  | cons p rest ih =>
    obtain ⟨id, i⟩ := p
    by_cases hs : alistLookup s id = none
    · have hm : id ∉ alistKeys s := (alistLookup_eq_none s id).mp hs
      simp only [infoFold, if_pos hs, List.map_cons, addIdsOnce, if_neg hm]
      rw [ih]
      simp [alistKeys]
    · have hm : id ∈ alistKeys s := by
        by_contra hcc
        exact hs ((alistLookup_eq_none s id).mpr hcc)
      simp only [infoFold, if_neg hs, List.map_cons, addIdsOnce, if_pos hm]
      exact ih s

/-! ## The final result-building loop -/

theorem buildResults_ok (scores : List (String × ℚ)) (info : List (String × DocInfo))
    (l : List String) (out : List SearchResult)
    (h : buildResults scores info l = .ok out) :
    out.map (·.id) = l ∧
      ∀ res ∈ out, ∃ i s, alistLookup info res.id = some i ∧
        alistLookup scores res.id = some s ∧
        res = ⟨res.id, i.content, s, i.metadata⟩ := by
  induction l generalizing out with
  | nil =>
    simp only [buildResults] at h
    cases h
    simp
  | cons id rest ih =>
    simp only [buildResults] at h
    cases hi : alistLookup info id with
    | none => rw [hi] at h; exact absurd h (by simp)
    | some i =>
      rw [hi] at h
      cases hsc : alistLookup scores id with
      | none => rw [hsc] at h; exact absurd h (by simp)
      | some s =>
        rw [hsc] at h
        cases hrec : buildResults scores info rest with
        | error e => rw [hrec] at h; exact absurd h (by simp [Except.map])
        | ok out' =>
          rw [hrec] at h
          simp only [Except.map] at h
          cases h
          obtain ⟨ih1, ih2⟩ := ih out' hrec
          constructor
          · simp [ih1]
          · intro res hres
            rcases List.mem_cons.mp hres with hres | hres
            · subst hres
              exact ⟨i, s, hi, hsc, rfl⟩
            · exact ih2 res hres

theorem buildResults_total (scores : List (String × ℚ)) (info : List (String × DocInfo))
    (l : List String)
    (h : ∀ x ∈ l, x ∈ alistKeys info ∧ x ∈ alistKeys scores) :
    ∃ out, buildResults scores info l = .ok out := by
  induction l with
  | nil => exact ⟨[], rfl⟩
  | cons id rest ih =>
    obtain ⟨out', hout'⟩ := ih (fun x hx => h x (List.mem_cons_of_mem _ hx))
    obtain ⟨hi, hsc⟩ := h id (List.mem_cons_self _ _)
    obtain ⟨i, hii⟩ := Option.isSome_iff_exists.mp ((alistLookup_isSome info id).mpr hi)
    obtain ⟨s, hss⟩ := Option.isSome_iff_exists.mp ((alistLookup_isSome scores id).mpr hsc)
    refine ⟨⟨id, i.content, s, i.metadata⟩ :: out', ?_⟩
    simp only [buildResults, hii, hss, hout', Except.map]

/-! ## The two dicts after both merge loops -/

theorem addIdsOnce_append (a b : List String) (acc : List String) :
    addIdsOnce (a ++ b) acc = addIdsOnce b (addIdsOnce a acc) := by
  induction a generalizing acc with
  | nil => rfl
  | cons id rest ih => simp [addIdsOnce, ih]

theorem mergedScores_keys (alpha : ℚ) (dense : List SearchResult) (bm25 : List BM25Result) :
    alistKeys (scoresFold (1 - alpha) 0 (bm25.map (·.id))
        (scoresFold alpha 0 (dense.map (·.id)) [])) =
      firstSeenIds (dense.map (·.id) ++ bm25.map (·.id)) := by
  rw [scoresFold_keys, scoresFold_keys, firstSeenIds, addIdsOnce_append]
  rfl

theorem mergedScores_lookup (alpha : ℚ) (dense : List SearchResult) (bm25 : List BM25Result)
    (x : String) :
    alistLookup (scoresFold (1 - alpha) 0 (bm25.map (·.id))
        (scoresFold alpha 0 (dense.map (·.id)) [])) x =
      if x ∈ dense.map (·.id) ∨ x ∈ bm25.map (·.id)
      then some (specFusedScore alpha dense bm25 x) else none := by
  have hkeys : (x ∈ alistKeys (scoresFold alpha 0 (dense.map (·.id)) [])) ↔
      x ∈ dense.map (·.id) := by
    rw [scoresFold_keys]
    simpa [alistKeys] using mem_addIdsOnce (dense.map (·.id)) [] x
  rw [scoresFold_lookup, scoresFold_lookup]
  have h0 : alistLookup ([] : List (String × ℚ)) x = none := rfl
  have hk0 : (x ∈ alistKeys ([] : List (String × ℚ))) = False := by
    simp [alistKeys]
  have hcond : (x ∈ alistKeys (scoresFold alpha 0 (dense.map (·.id)) []) ∨
      x ∈ bm25.map (·.id)) ↔ (x ∈ dense.map (·.id) ∨ x ∈ bm25.map (·.id)) :=
    or_congr hkeys Iff.rfl
  simp only [h0, hk0, false_or, Option.getD_none, zero_add, specFusedScore,
    rrfContrib_eq_wContrib, hcond]
  by_cases hc : x ∈ dense.map (·.id) ∨ x ∈ bm25.map (·.id)
  · rw [if_pos hc, if_pos hc]
    by_cases hd : x ∈ dense.map (·.id)
    · rw [if_pos hd]
      simp
    · rw [if_neg hd]
      simp [wContrib_of_not_mem alpha 0 (dense.map (·.id)) x hd]
  · rw [if_neg hc, if_neg hc]

theorem mergedInfo_keys (dense : List SearchResult) (bm25 : List BM25Result) :
    alistKeys (infoFold (bm25.map (fun r => (r.id, (⟨r.content, r.metadata.getD []⟩ : DocInfo))))
        (infoFold (dense.map (fun r => (r.id, (⟨r.content, r.metadata⟩ : DocInfo)))) [])) =
      firstSeenIds (dense.map (·.id) ++ bm25.map (·.id)) := by
  rw [infoFold_keys, infoFold_keys, firstSeenIds, addIdsOnce_append]
  simp only [List.map_map]
  rfl

theorem mergedInfo_lookup (dense : List SearchResult) (bm25 : List BM25Result) (x : String) :
    alistLookup (infoFold (bm25.map (fun r => (r.id, (⟨r.content, r.metadata.getD []⟩ : DocInfo))))
        (infoFold (dense.map (fun r => (r.id, (⟨r.content, r.metadata⟩ : DocInfo)))) [])) x =
      ((dense.map (fun r => (r.id, (⟨r.content, r.metadata⟩ : DocInfo))) ++
        bm25.map (fun r => (r.id, (⟨r.content, r.metadata.getD []⟩ : DocInfo)))).find?
          (fun p => p.1 == x)).map Prod.snd := by
  rw [infoFold_lookup, infoFold_lookup, List.find?_append]
  simp only [alistLookup, Option.none_or]
  cases (dense.map (fun r => (r.id, (⟨r.content, r.metadata⟩ : DocInfo)))).find?
      (fun p => p.1 == x) with
  | none => simp
  | some p => simp

theorem mem_firstSeenIds (ids : List String) (x : String) :
    x ∈ firstSeenIds ids ↔ x ∈ ids := by
  simpa [firstSeenIds] using mem_addIdsOnce ids [] x

theorem firstSeenIds_nodup (ids : List String) : (firstSeenIds ids).Nodup :=
  addIdsOnce_nodup ids [] List.nodup_nil

theorem merge_eq (m : HybridMerger) (dense : List SearchResult) (bm25 : List BM25Result)
    (k : Nat) :
    m.merge dense bm25 k =
      if dense = [] ∧ bm25 = [] then .ok []
      else
        buildResults
          (scoresFold (1 - m.alpha) 0 (bm25.map (·.id))
            (scoresFold m.alpha 0 (dense.map (·.id)) []))
          (infoFold (bm25.map (fun r => (r.id, (⟨r.content, r.metadata.getD []⟩ : DocInfo))))
            (infoFold (dense.map (fun r => (r.id, (⟨r.content, r.metadata⟩ : DocInfo)))) []))
          ((List.insertionSort
            (scoreRel (scoresFold (1 - m.alpha) 0 (bm25.map (·.id))
              (scoresFold m.alpha 0 (dense.map (·.id)) [])))
            (alistKeys (scoresFold (1 - m.alpha) 0 (bm25.map (·.id))
              (scoresFold m.alpha 0 (dense.map (·.id)) [])))).take k) := by
  by_cases hg : dense = [] ∧ bm25 = []
  · rw [HybridMerger.merge, if_pos hg, if_pos hg]
  · rw [HybridMerger.merge, if_neg hg, if_neg hg]
    simp only [bm25Loop_scores, denseLoop_scores, bm25Loop_info, denseLoop_info]

theorem merge_spec (m : HybridMerger) (dense : List SearchResult) (bm25 : List BM25Result)
    (k : Nat) :
    ∃ (ranked : List String) (out : List SearchResult),
      m.merge dense bm25 k = .ok out ∧
      ranked.Perm (firstSeenIds (dense.map (·.id) ++ bm25.map (·.id))) ∧
      ranked.Pairwise (fun a b =>
        specFusedScore m.alpha dense bm25 b ≤ specFusedScore m.alpha dense bm25 a) ∧
      out.map (·.id) = ranked.take k ∧
      (∀ res ∈ out, res.score = specFusedScore m.alpha dense bm25 res.id) ∧
      (∀ res ∈ out,
        ((dense.map (fun r => (r.id, (⟨r.content, r.metadata⟩ : DocInfo))) ++
          bm25.map (fun r => (r.id, (⟨r.content, r.metadata.getD []⟩ : DocInfo)))).find?
            (fun p => p.1 == res.id)).map Prod.snd = some ⟨res.content, res.metadata⟩) := by
  by_cases hg : dense = [] ∧ bm25 = []
  · obtain ⟨h1, h2⟩ := hg
    subst h1
    subst h2
    refine ⟨[], [], ?_, ?_, ?_, ?_, ?_, ?_⟩
    · rw [merge_eq, if_pos ⟨rfl, rfl⟩]
    · exact List.Perm.refl _
    · exact List.Pairwise.nil
    · exact (List.take_nil).symm
    · intro res hres
      exact absurd hres (List.not_mem_nil res)
    · intro res hres
      exact absurd hres (List.not_mem_nil res)
  · have hmerge := merge_eq m dense bm25 k
    rw [if_neg hg] at hmerge
    set S := scoresFold (1 - m.alpha) 0 (bm25.map (·.id))
      (scoresFold m.alpha 0 (dense.map (·.id)) []) with hSdef
    set I := infoFold (bm25.map (fun r => (r.id, (⟨r.content, r.metadata.getD []⟩ : DocInfo))))
      (infoFold (dense.map (fun r => (r.id, (⟨r.content, r.metadata⟩ : DocInfo)))) []) with hIdef
    set sortedIds := List.insertionSort (scoreRel S) (alistKeys S) with hsortdef
    have hSkeys : alistKeys S = firstSeenIds (dense.map (·.id) ++ bm25.map (·.id)) :=
      mergedScores_keys m.alpha dense bm25
    have hIkeys : alistKeys I = firstSeenIds (dense.map (·.id) ++ bm25.map (·.id)) :=
      mergedInfo_keys dense bm25
    have hperm : sortedIds.Perm (alistKeys S) := List.perm_insertionSort _ _
    have htot : ∀ x ∈ sortedIds.take k, x ∈ alistKeys I ∧ x ∈ alistKeys S := by
      intro x hx
      have hx' : x ∈ alistKeys S := hperm.mem_iff.mp (List.mem_of_mem_take hx)
      refine ⟨?_, hx'⟩
      rw [hIkeys, ← hSkeys]
      exact hx'
    obtain ⟨out, hout⟩ := buildResults_total S I (sortedIds.take k) htot
    have hkeymem : ∀ x ∈ alistKeys S, x ∈ dense.map (·.id) ∨ x ∈ bm25.map (·.id) := by
      intro x hx
      rw [hSkeys, mem_firstSeenIds, List.mem_append] at hx
      exact hx
    have hgetd : ∀ x ∈ alistKeys S, dictGetD S x 0 = specFusedScore m.alpha dense bm25 x := by
      intro x hx
      rw [dictGetD, mergedScores_lookup, if_pos (hkeymem x hx)]
      rfl
    refine ⟨sortedIds, out, ?_, ?_, ?_, ?_, ?_, ?_⟩
    · rw [hmerge]
      exact hout
    · rw [← hSkeys]
      exact hperm
    · have hsorted : sortedIds.Pairwise (scoreRel S) :=
        List.sorted_insertionSort (scoreRel S) (alistKeys S)
      refine hsorted.imp_of_mem ?_
      intro a b ha hb hr
      have ha' : a ∈ alistKeys S := hperm.mem_iff.mp ha
      have hb' : b ∈ alistKeys S := hperm.mem_iff.mp hb
      have hr' : dictGetD S b 0 ≤ dictGetD S a 0 := hr
      rw [hgetd a ha', hgetd b hb'] at hr'
      exact hr'
    · exact (buildResults_ok S I _ out hout).1
    · intro res hres
      obtain ⟨i, s, hii, hss, heq⟩ := (buildResults_ok S I _ out hout).2 res hres
      have hmem : res.id ∈ alistKeys S := by
        refine (alistLookup_isSome S res.id).mp ?_
        rw [hss]
        rfl
      have hsc : res.score = s := by rw [heq]
      rw [mergedScores_lookup, if_pos (hkeymem res.id hmem)] at hss
      injection hss with hss'
      rw [hsc, ← hss']
    · intro res hres
      obtain ⟨i, s, hii, hss, heq⟩ := (buildResults_ok S I _ out hout).2 res hres
      have hc : res.content = i.content := by rw [heq]
      have hm : res.metadata = i.metadata := by rw [heq]
      rw [← mergedInfo_lookup, hIdef] at *
      rw [hc, hm]
      rw [show alistLookup I res.id = some i from hii]

/-! ## Sigmoid bounds and search membership -/

theorem normalizeScore_pos (x : ℝ) : 0 < normalizeScore x := by
  unfold normalizeScore
  positivity

theorem normalizeScore_lt_one (x : ℝ) : normalizeScore x < 1 := by
  unfold normalizeScore
  rw [div_lt_one (by positivity)]
  have := Real.exp_pos (-x)
  linarith

theorem normalizeScore_gt_half (x : ℝ) (hx : 0 < x) : 1 / 2 < normalizeScore x := by
  unfold normalizeScore
  have h1 : Real.exp (-x) < 1 := Real.exp_lt_one_iff.mpr (by linarith)
  have h2 : (0 : ℝ) < 1 + Real.exp (-x) := by positivity
  rw [lt_div_iff₀ h2]
  linarith

theorem search_mem_spec (st : BM25IndexState) (query : String) (topK : Nat) (res : KWResult)
    (h : res ∈ BM25Index.search st query topK) :
    ∃ model rank raw doc,
      st.bm25 = some model ∧
      (model (tokenize st.tokenizer query)).get? rank = some raw ∧
      st.documents.get? rank = some doc ∧ 0 < raw ∧
      res = ⟨doc.id, doc.content, normalizeScore raw, doc.metadata⟩ := by
  obtain ⟨tok, docs, corpus, bm⟩ := st
  unfold BM25Index.search at h
  cases bm with
  | none =>
    exact absurd h (List.not_mem_nil res)
  | some model =>
    dsimp only at h
    by_cases hd : docs = []
    · rw [if_pos hd] at h
      exact absurd h (List.not_mem_nil res)
    · rw [if_neg hd] at h
      by_cases hq : tokenize tok query = []
      · rw [if_pos hq] at h
        exact absurd h (List.not_mem_nil res)
      · rw [if_neg hq] at h
        have h1 : res ∈ searchSort ((model (tokenize tok query)).enum.filterMap
            (fun (p : Nat × ℝ) =>
              match docs.get? p.1 with
              | some doc =>
                  if 0 < p.2 then some ⟨doc.id, doc.content, normalizeScore p.2, doc.metadata⟩
                  else none
              | none => none)) := List.mem_of_mem_take h
        rw [searchSort] at h1
        have h2 := (@List.perm_insertionSort KWResult (fun a b => b.score ≤ a.score)
          (fun _ _ => Classical.dec _) _).mem_iff.mp h1
        obtain ⟨p, hp, hf⟩ := List.mem_filterMap.mp h2
        rw [List.mem_enum_iff_getElem?] at hp
        cases hdoc : docs.get? p.1 with
        | none => rw [hdoc] at hf; exact absurd hf (by simp)
        | some doc =>
          rw [hdoc] at hf
          dsimp only at hf
          by_cases hpos : 0 < p.2
          · rw [if_pos hpos] at hf
            refine ⟨model, p.1, p.2, doc, rfl, ?_, hdoc, hpos, ?_⟩
            · rw [List.get?_eq_getElem?]
              exact hp
            · exact (Option.some.injEq _ _ ▸ hf).symm
          · rw [if_neg hpos] at hf
            exact absurd hf (by simp)

/-! ## Tokenizer pipeline decomposition -/

theorem foldl_filter_map {α β : Type} (p : α → Prop) [DecidablePred p] (f : α → β)
    (l : List α) (acc : List β) :
    l.foldl (fun acc t => if p t then acc ++ [f t] else acc) acc =
      acc ++ (l.filter (fun t => p t)).map f := by
  induction l generalizing acc with
  | nil => simp
  | cons t rest ih =>
    by_cases h : p t
    · simp [h, ih]
    · simp [h, ih]

theorem tokenize_stages (c : KoreanTokenizer) (text : String)
    (h : pythonBlank text = false) :
    tokenize c text =
      specStopword c (specRestore c (specProtect c text).2
        (specSegment c (specExpand c (specProtect c text).1))) := by
  unfold tokenize specStopword specRestore specSegment specExpand specProtect
  rw [if_neg (by simp [h])]
  dsimp only
  simp only [foldl_filter_map]
  simp

/-! ## Concrete merge evaluations shared by witnesses and counterexamples -/

theorem cMerge_eq :
    HybridMerger.merge ⟨1/2⟩ [dA] [bA] 5 = .ok [⟨"A", "a", 1/61, []⟩] := by
  rw [HybridMerger.merge, if_neg (by simp)]
  norm_num [denseLoop, bm25Loop, dictInsert, dictGetD, alistLookup,
    alistKeys, buildResults, List.insertionSort, List.orderedInsert, scoreRel,
    dA, bA, Except.map]

theorem cMergeDup_eq :
    HybridMerger.merge ⟨1⟩ [dA, dA2] [] 10 = .ok [⟨"A", "a", 1/61 + 1/62, []⟩] := by
  rw [HybridMerger.merge, if_neg (by simp)]
  norm_num [denseLoop, bm25Loop, dictInsert, dictGetD, alistLookup,
    alistKeys, buildResults, List.insertionSort, List.orderedInsert, scoreRel,
    dA, dA2, Except.map]

theorem cMergeZero2_eq :
    HybridMerger.merge ⟨0⟩ [dA] [bB, bC] 2 =
      .ok [⟨"B", "b", 1/61, []⟩, ⟨"C", "c", 1/62, []⟩] := by
  have hAB : ("A" : String) ≠ "B" := by decide
  have hAC : ("A" : String) ≠ "C" := by decide
  have hBC : ("B" : String) ≠ "C" := by decide
  have hBA : ("B" : String) ≠ "A" := by decide
  have hCA : ("C" : String) ≠ "A" := by decide
  have hCB : ("C" : String) ≠ "B" := by decide
  rw [HybridMerger.merge, if_neg (by simp)]
  norm_num [denseLoop, bm25Loop, dictInsert, dictGetD, alistLookup,
    alistKeys, buildResults, List.insertionSort, List.orderedInsert, scoreRel,
    dA, bB, bC, Except.map, hAB, hAC, hBC, hBA, hCA, hCB]

theorem cMergeZero3_eq :
    HybridMerger.merge ⟨0⟩ [dA] [bB, bC] 3 =
      .ok [⟨"B", "b", 1/61, []⟩, ⟨"C", "c", 1/62, []⟩, ⟨"A", "a", 0, []⟩] := by
  have hAB : ("A" : String) ≠ "B" := by decide
  have hAC : ("A" : String) ≠ "C" := by decide
  have hBC : ("B" : String) ≠ "C" := by decide
  have hBA : ("B" : String) ≠ "A" := by decide
  have hCA : ("C" : String) ≠ "A" := by decide
  have hCB : ("C" : String) ≠ "B" := by decide
  rw [HybridMerger.merge, if_neg (by simp)]
  norm_num [denseLoop, bm25Loop, dictInsert, dictGetD, alistLookup,
    alistKeys, buildResults, List.insertionSort, List.orderedInsert, scoreRel,
    dA, bB, bC, Except.map, hAB, hAC, hBC, hBA, hCA, hCB]

theorem cSearch_eq :
    BM25Index.search cIndex "q" 5 = [⟨"d1", "c1", normalizeScore (Real.log 2), []⟩] := by
  have hlog : (0 : ℝ) < Real.log 2 := Real.log_pos (by norm_num)
  have hq : pythonBlank "q" = false := by decide
  have hc1 : pythonBlank "c1" = false := by decide
  have hNNG : ("NNG" : String) ∈ meaningfulPosTags := by decide
  have hJKS : ("JKS" : String) ∉ meaningfulPosTags := by decide
  simp [cIndex, BM25Index.build, BM25Index.initState, BM25Index.search, cModel, cDoc,
    cTokenizer, tokenize, tokenizeBatch, hq, hc1, hNNG, hJKS, searchSort,
    List.insertionSort, List.orderedInsert, hlog, List.enum_eq_enumFrom, List.enumFrom]

/-! ## Claim theorems -/

/-- C1: for every constructed merger, `merge` computes each document's fused
score as the sum, over every occurrence of its id, of `alpha * 1/(60+r+1)` for
a zero-based rank `r` in the dense list and `(1-alpha) * 1/(60+r+1)` for a
zero-based rank `r` in the keyword list (contributions summed, not replaced),
and returns the accumulated ids sorted descending by this fused score,
truncated to the first `top_k`. -/
theorem claim_C1 (m : HybridMerger) (dense : List SearchResult) (bm25 : List BM25Result)
    (k : Nat) (out : List SearchResult)
    (h : m.merge dense bm25 k = .ok out) :
    (∀ res ∈ out, res.score = specFusedScore m.alpha dense bm25 res.id) ∧
    ∃ ranked : List String,
      ranked.Perm (firstSeenIds (dense.map (·.id) ++ bm25.map (·.id))) ∧
      ranked.Pairwise (fun a b =>
        specFusedScore m.alpha dense bm25 b ≤ specFusedScore m.alpha dense bm25 a) ∧
      out.map (·.id) = ranked.take k := by
  obtain ⟨ranked, out', hok, hperm, hpair, hmap, hscore, _⟩ := merge_spec m dense bm25 k
  rw [h] at hok
  injection hok with hok'
  subst hok'
  exact ⟨hscore, ranked, hperm, hpair, hmap⟩

/-- Witness for C1: a concrete merge call with the same id in both lists. -/
theorem claim_C1_witness :
    HybridMerger.merge ⟨1/2⟩ [dA] [bA] 5 = .ok [⟨"A", "a", 1/61, []⟩] ∧
    ∀ res ∈ [(⟨"A", "a", 1/61, []⟩ : SearchResult)],
      res.score = specFusedScore (1/2) [dA] [bA] res.id :=
  ⟨cMerge_eq, (claim_C1 ⟨1/2⟩ [dA] [bA] 5 [⟨"A", "a", 1/61, []⟩] cMerge_eq).1⟩

/-- C2: constructing the merger fails exactly when `alpha` is outside `[0,1]`
(in particular for `-0.1` and `1.1`), and `merge` itself never raises: it
returns a result for every merger value and every pair of input lists and
every `top_k`. -/
theorem claim_C2 :
    (∀ alpha : ℚ, (HybridMerger.init alpha).isOk = true ↔ (0 ≤ alpha ∧ alpha ≤ 1)) ∧
    (HybridMerger.init (-1/10)).isOk = false ∧
    (HybridMerger.init (11/10)).isOk = false ∧
    ∀ (m : HybridMerger) (dense : List SearchResult) (bm25 : List BM25Result) (k : Nat),
      (m.merge dense bm25 k).isOk = true := by
  refine ⟨?_, ?_, ?_, ?_⟩
  · intro alpha
    rw [HybridMerger.init]
    by_cases h : 0 ≤ alpha ∧ alpha ≤ 1
    · rw [if_pos h]
      simpa [Except.isOk, Except.toBool] using h
    · rw [if_neg h]
      simpa [Except.isOk, Except.toBool] using h
  · rw [HybridMerger.init, if_neg (by norm_num)]
    rfl
  · rw [HybridMerger.init, if_neg (by norm_num)]
    rfl
  · intro m dense bm25 k
    obtain ⟨_, out, hok, _⟩ := merge_spec m dense bm25 k
    rw [hok]
    rfl

/-- C3: the empty-input degeneracy laws. Tokenizing an empty or whitespace-only
string yields `[]`; batch-tokenizing `[]` yields `[]`; building from an empty
document list leaves zero documents and makes every search return `[]`; and
merging two empty lists returns `[]` for every `top_k`. -/
theorem claim_C3 :
    (∀ (c : KoreanTokenizer) (text : String), pythonBlank text = true →
      tokenize c text = []) ∧
    (∀ c : KoreanTokenizer, tokenizeBatch c [] = []) ∧
    (∀ (mkModel : List (List String) → List String → List ℝ) (st : BM25IndexState),
      BM25Index.documentCount (BM25Index.build mkModel st []) = 0 ∧
      ∀ (q : String) (k : Nat), BM25Index.search (BM25Index.build mkModel st []) q k = []) ∧
    (∀ (m : HybridMerger) (k : Nat), m.merge [] [] k = .ok []) := by
  refine ⟨?_, ?_, ?_, ?_⟩
  · intro c text h
    rw [tokenize, if_pos h]
  · intro c
    rfl
  · intro mkModel st
    constructor
    · simp [BM25Index.build, BM25Index.documentCount]
    · intro q k
      simp [BM25Index.build, BM25Index.search]
  · intro m k
    rw [HybridMerger.merge, if_pos ⟨rfl, rfl⟩]

/-- Witness for C3 at concrete inputs (a whitespace-only text, an empty batch,
an empty build, an empty merge). -/
theorem claim_C3_witness :
    pythonBlank " " = true ∧
    tokenize cTokenizer " " = [] ∧
    tokenizeBatch cTokenizer [] = [] ∧
    BM25Index.documentCount (BM25Index.build cModel (BM25Index.initState cTokenizer) []) = 0 ∧
    HybridMerger.merge ⟨3/5⟩ [] [] 10 = .ok [] :=
  ⟨by decide, claim_C3.1 cTokenizer " " (by decide), claim_C3.2.1 cTokenizer,
    (claim_C3.2.2.1 cModel (BM25Index.initState cTokenizer)).1,
    claim_C3.2.2.2 ⟨3/5⟩ 10⟩

/-- C4: every result returned by `search` carries score equal to the sigmoid
`1/(1+e^(-raw))` of that document's raw BM25 score, and every returned score
lies strictly in `(0, 1)`. -/
theorem claim_C4 (st : BM25IndexState) (query : String) (topK : Nat) (res : KWResult)
    (h : res ∈ BM25Index.search st query topK) :
    (∃ model rank raw doc,
      st.bm25 = some model ∧
      (model (tokenize st.tokenizer query)).get? rank = some raw ∧
      st.documents.get? rank = some doc ∧
      res = ⟨doc.id, doc.content, normalizeScore raw, doc.metadata⟩) ∧
    0 < res.score ∧ res.score < 1 := by
  obtain ⟨model, rank, raw, doc, hb, hm, hd, hpos, heq⟩ := search_mem_spec st query topK res h
  refine ⟨⟨model, rank, raw, doc, hb, hm, hd, heq⟩, ?_, ?_⟩
  · rw [heq]
    exact normalizeScore_pos raw
  · rw [heq]
    exact normalizeScore_lt_one raw

/-- Witness for C4: a concrete one-document search hit. -/
theorem claim_C4_witness :
    (⟨"d1", "c1", normalizeScore (Real.log 2), []⟩ : KWResult) ∈
      BM25Index.search cIndex "q" 5 ∧
    0 < (⟨"d1", "c1", normalizeScore (Real.log 2), []⟩ : KWResult).score ∧
    (⟨"d1", "c1", normalizeScore (Real.log 2), []⟩ : KWResult).score < 1 := by
  have hmem : (⟨"d1", "c1", normalizeScore (Real.log 2), []⟩ : KWResult) ∈
      BM25Index.search cIndex "q" 5 := by
    rw [cSearch_eq]
    exact List.mem_singleton.mpr rfl
  exact ⟨hmem, (claim_C4 cIndex "q" 5 _ hmem).2⟩

/-- C9: every result returned by `search` has score strictly greater than 1/2
(and below 1): non-positive raw scores are discarded before normalization and
the sigmoid of a strictly positive raw score exceeds 1/2. -/
theorem claim_C9 (st : BM25IndexState) (query : String) (topK : Nat) (res : KWResult)
    (h : res ∈ BM25Index.search st query topK) :
    1 / 2 < res.score ∧ res.score < 1 := by
  obtain ⟨model, rank, raw, doc, hb, hm, hd, hpos, heq⟩ := search_mem_spec st query topK res h
  constructor
  · rw [heq]
    exact normalizeScore_gt_half raw hpos
  · rw [heq]
    exact normalizeScore_lt_one raw

/-- Witness for C9: the same concrete search hit as C4's witness. -/
theorem claim_C9_witness :
    (⟨"d1", "c1", normalizeScore (Real.log 2), []⟩ : KWResult) ∈
      BM25Index.search cIndex "q" 5 ∧
    1 / 2 < (⟨"d1", "c1", normalizeScore (Real.log 2), []⟩ : KWResult).score ∧
    (⟨"d1", "c1", normalizeScore (Real.log 2), []⟩ : KWResult).score < 1 := by
  have hmem : (⟨"d1", "c1", normalizeScore (Real.log 2), []⟩ : KWResult) ∈
      BM25Index.search cIndex "q" 5 := by
    rw [cSearch_eq]
    exact List.mem_singleton.mpr rfl
  exact ⟨hmem, claim_C9 cIndex "q" 5 _ hmem⟩

/-- C5: when an id occurs in both input lists, the merged result for that id
carries the content and metadata of its first occurrence in the dense list
(processed first), never the keyword list's. -/
theorem claim_C5 (m : HybridMerger) (dense : List SearchResult) (bm25 : List BM25Result)
    (k : Nat) (out : List SearchResult) (res : SearchResult) (d : SearchResult)
    (h : m.merge dense bm25 k = .ok out) (hres : res ∈ out)
    (hd : dense.find? (fun r => r.id == res.id) = some d) :
    res.content = d.content ∧ res.metadata = d.metadata := by
  obtain ⟨ranked, out', hok, _, _, _, _, hinfo⟩ := merge_spec m dense bm25 k
  rw [h] at hok
  injection hok with hok'
  subst hok'
  have hfind := hinfo res hres
  rw [List.find?_append, List.find?_map, List.find?_map] at hfind
  have hcomp : ((fun p => p.1 == res.id) ∘
      (fun r : SearchResult => (r.id, (⟨r.content, r.metadata⟩ : DocInfo)))) =
      (fun r : SearchResult => r.id == res.id) := rfl
  rw [hcomp, hd] at hfind
  simp at hfind
  exact ⟨hfind.1.symm, hfind.2.symm⟩

/-- Witness for C5: the concrete merge call of C1's witness, where id `A`
occurs in both lists and the output keeps the dense content and metadata. -/
theorem claim_C5_witness :
    HybridMerger.merge ⟨1/2⟩ [dA] [bA] 5 = .ok [⟨"A", "a", 1/61, []⟩] ∧
    [dA].find? (fun r => r.id == (⟨"A", "a", 1/61, []⟩ : SearchResult).id) = some dA ∧
    (⟨"A", "a", 1/61, []⟩ : SearchResult).content = dA.content ∧
    (⟨"A", "a", 1/61, []⟩ : SearchResult).metadata = dA.metadata := by
  have hfind : [dA].find? (fun r => r.id == (⟨"A", "a", 1/61, []⟩ : SearchResult).id) =
      some dA := by
    simp [dA, List.find?_cons]
  exact ⟨cMerge_eq, hfind,
    claim_C5 ⟨1/2⟩ [dA] [bA] 5 [⟨"A", "a", 1/61, []⟩] ⟨"A", "a", 1/61, []⟩ dA cMerge_eq
      (List.mem_singleton.mpr rfl) hfind⟩

/-- C6: for every merge call the output has no two results with the same id
and its length is at most `top_k`. -/
theorem claim_C6 (m : HybridMerger) (dense : List SearchResult) (bm25 : List BM25Result)
    (k : Nat) (out : List SearchResult)
    (h : m.merge dense bm25 k = .ok out) :
    out.length ≤ k ∧ (out.map (·.id)).Nodup := by
  obtain ⟨ranked, out', hok, hperm, _, hmap, _, _⟩ := merge_spec m dense bm25 k
  rw [h] at hok
  injection hok with hok'
  subst hok'
  constructor
  · have hlen := congrArg List.length hmap
    rw [List.length_map, List.length_take] at hlen
    rw [hlen]
    exact min_le_left _ _
  · have hnodup : ranked.Nodup := hperm.symm.nodup (firstSeenIds_nodup _)
    rw [hmap]
    exact (List.take_sublist k ranked).nodup hnodup

/-- Witness for C6 at a concrete merge call. -/
theorem claim_C6_witness :
    HybridMerger.merge ⟨1/2⟩ [dA] [bA] 5 = .ok [⟨"A", "a", 1/61, []⟩] ∧
    ([(⟨"A", "a", 1/61, []⟩ : SearchResult)].length ≤ 5 ∧
      (([(⟨"A", "a", 1/61, []⟩ : SearchResult)]).map (·.id)).Nodup) :=
  ⟨cMerge_eq, claim_C6 ⟨1/2⟩ [dA] [bA] 5 [⟨"A", "a", 1/61, []⟩] cMerge_eq⟩

/-- C7: on every non-blank input, `tokenize` is exactly the five-stage pipeline
protect, expand, segment, restore, stopword-filter, in that order: segmentation
keeps exactly the pairs whose tag is in the allow-list in original order
preserving repeats, restoration happens before stopword filtering, stopword
filtering is applied last, and each absent optional collaborator is a no-op. -/
theorem claim_C7 (c : KoreanTokenizer) (text : String) (h : pythonBlank text = false) :
    tokenize c text =
      specStopword c (specRestore c (specProtect c text).2
        (specSegment c (specExpand c (specProtect c text).1))) ∧
    (∀ t, specSegment c t = (c.kiwi t).filter (fun tok => tok.tag ∈ meaningfulPosTags)) ∧
    (c.userDictionary = none → specProtect c text = (text, [])) ∧
    (c.synonymManager = none → ∀ t, specExpand c t = t) ∧
    (c.stopwordFilter = none → ∀ ts, specStopword c ts = ts) := by
  refine ⟨tokenize_stages c text h, fun t => rfl, ?_, ?_, ?_⟩
  · intro hud
    rw [specProtect, hud]
  · intro hsm t
    rw [specExpand, hsm]
  · intro hsf ts
    rw [specStopword, hsf]

/-- Witness for C7 at a concrete non-blank text and tokenizer. -/
theorem claim_C7_witness :
    pythonBlank "hi" = false ∧
    tokenize cTokenizer "hi" =
      specStopword cTokenizer (specRestore cTokenizer (specProtect cTokenizer "hi").2
        (specSegment cTokenizer (specExpand cTokenizer (specProtect cTokenizer "hi").1))) :=
  ⟨by decide, (claim_C7 cTokenizer "hi" (by decide)).1⟩

/-- C8 counterexample: the claim predicts that with id `A` at dense ranks 0 and
1, the later contribution `1/62` replaces the earlier; the code instead sums
both contributions to `1/61 + 1/62`. -/
theorem claim_C8_counterexample :
    HybridMerger.merge ⟨1⟩ [dA, dA2] [] 10 = .ok [⟨"A", "a", 1/61 + 1/62, []⟩] ∧
    (1/61 + 1/62 : ℚ) ≠ 1/62 :=
  ⟨cMergeDup_eq, by norm_num⟩

/-- C8 amended: when a single input list contains the same id at two different
ranks, the later occurrence's contribution is ADDED to the earlier occurrence's
accumulated score (the same summation as for cross-list occurrences), not
overwritten: every output score is the sum over all occurrences in both
lists. -/
theorem claim_C8_amended (m : HybridMerger) (dense : List SearchResult)
    (bm25 : List BM25Result) (k : Nat) (out : List SearchResult) (res : SearchResult)
    (h : m.merge dense bm25 k = .ok out) (hres : res ∈ out) :
    res.score = specFusedScore m.alpha dense bm25 res.id := by
  obtain ⟨_, out', hok, _, _, _, hscore, _⟩ := merge_spec m dense bm25 k
  rw [h] at hok
  injection hok with hok'
  subst hok'
  exact hscore res hres

/-- Witness for C8's amended claim at the duplicate-id input. -/
theorem claim_C8_witness :
    HybridMerger.merge ⟨1⟩ [dA, dA2] [] 10 = .ok [⟨"A", "a", 1/61 + 1/62, []⟩] ∧
    (⟨"A", "a", 1/61 + 1/62, []⟩ : SearchResult).score =
      specFusedScore 1 [dA, dA2] [] (⟨"A", "a", 1/61 + 1/62, []⟩ : SearchResult).id :=
  ⟨cMergeDup_eq,
    claim_C8_amended ⟨1⟩ [dA, dA2] [] 10 [⟨"A", "a", 1/61 + 1/62, []⟩]
      ⟨"A", "a", 1/61 + 1/62, []⟩ cMergeDup_eq (List.mem_singleton.mpr rfl)⟩

/-- C10 counterexample: with `alpha = 0`, `dense = [A]`, `keyword = [B, C]`
and `top_k = 2`, the output ids are `B, C` (ranked by fused score), not the
first two ids `A, B` of the union of the inputs; in particular the dense-only
document `A` does not appear in the output at all. -/
theorem claim_C10_counterexample :
    HybridMerger.init 0 = .ok ⟨0⟩ ∧
    HybridMerger.merge ⟨0⟩ [dA] [bB, bC] 2 =
      .ok [⟨"B", "b", 1/61, []⟩, ⟨"C", "c", 1/62, []⟩] ∧
    (firstSeenIds ([dA].map (·.id) ++ [bB, bC].map (·.id))).take 2 = ["A", "B"] ∧
    ("A" : String) ∉
      ([⟨"B", "b", 1/61, []⟩, ⟨"C", "c", 1/62, []⟩] : List SearchResult).map (·.id) := by
  refine ⟨?_, cMergeZero2_eq, ?_, ?_⟩
  · rw [HybridMerger.init, if_pos (by norm_num)]
  · simp [dA, bB, bC, firstSeenIds, addIdsOnce]
  · simp

/-- C10 amended: zero-weight contributions are never filtered out — a document
appearing only in the list whose weight is zero still enters the ranking with
fused score exactly 0 and appears in the output whenever `top_k` covers all
distinct ids; the output id set is the first `top_k` of the ids ordered by
descending fused score, not the first `top_k` of the input union in input
order. -/
theorem claim_C10_amended (m : HybridMerger) (dense : List SearchResult)
    (bm25 : List BM25Result) (k : Nat) (out : List SearchResult)
    (h : m.merge dense bm25 k = .ok out)
    (hk : (firstSeenIds (dense.map (·.id) ++ bm25.map (·.id))).length ≤ k) :
    (out.map (·.id)).Perm (firstSeenIds (dense.map (·.id) ++ bm25.map (·.id))) ∧
    (m.alpha = 1 → ∀ res ∈ out, res.id ∉ dense.map (·.id) → res.score = 0) ∧
    (m.alpha = 0 → ∀ res ∈ out, res.id ∉ bm25.map (·.id) → res.score = 0) := by
  obtain ⟨ranked, out', hok, hperm, _, hmap, hscore, _⟩ := merge_spec m dense bm25 k
  rw [h] at hok
  injection hok with hok'
  subst hok'
  have hlen : ranked.length = (firstSeenIds (dense.map (·.id) ++ bm25.map (·.id))).length :=
    hperm.length_eq
  have htake : ranked.take k = ranked := List.take_of_length_le (le_trans (le_of_eq hlen) hk)
  refine ⟨?_, ?_, ?_⟩
  · rw [hmap, htake]
    exact hperm
  · intro ha res hres hnd
    rw [hscore res hres, specFusedScore, rrfContrib_eq_wContrib, rrfContrib_eq_wContrib,
      wContrib_of_not_mem m.alpha 0 (dense.map (·.id)) res.id hnd, ha]
    norm_num [wContrib_zero_weight]
  · intro ha res hres hnb
    rw [hscore res hres, specFusedScore, rrfContrib_eq_wContrib, rrfContrib_eq_wContrib,
      wContrib_of_not_mem (1 - m.alpha) 0 (bm25.map (·.id)) res.id hnb, ha]
    norm_num [wContrib_zero_weight]

/-- Witness for C10's amended claim: with `top_k = 3` covering all three
distinct ids, the zero-scored dense-only document `A` appears in the output. -/
theorem claim_C10_witness :
    HybridMerger.merge ⟨0⟩ [dA] [bB, bC] 3 =
      .ok [⟨"B", "b", 1/61, []⟩, ⟨"C", "c", 1/62, []⟩, ⟨"A", "a", 0, []⟩] ∧
    (firstSeenIds ([dA].map (·.id) ++ [bB, bC].map (·.id))).length ≤ 3 ∧
    (([⟨"B", "b", 1/61, []⟩, ⟨"C", "c", 1/62, []⟩, ⟨"A", "a", 0, []⟩] :
        List SearchResult).map (·.id)).Perm
      (firstSeenIds ([dA].map (·.id) ++ [bB, bC].map (·.id))) := by
  have hk : (firstSeenIds ([dA].map (·.id) ++ [bB, bC].map (·.id))).length ≤ 3 := by
    simp [dA, bB, bC, firstSeenIds, addIdsOnce]
  exact ⟨cMergeZero3_eq, hk,
    (claim_C10_amended ⟨0⟩ [dA] [bB, bC] 3 _ cMergeZero3_eq hk).1⟩
